import Mathlib

set_option autoImplicit false

/-!
Shallow embedding of the alarms-dispatcher dispatch engine
(src/alarms-dispatcher/src/main.rs, src/alarms-dispatcher/src/log.rs) and of
the Osmosis price provider (src/src/provider/crypto/osmosis.rs,
src/src/provider/base/mod.rs), with theorems settling the frozen claims.
-/

/-- Numeric value of a most-significant-first list of decimal digit
characters, as accumulated by Rust's integer parsing. -/
def digitsVal : List Char → Nat
  | [] => 0
  | c :: cs => (c.toNat - Char.toNat '0') * 10 ^ cs.length + digitsVal cs

instance {ε α : Type} [DecidableEq ε] [DecidableEq α] :
    DecidableEq (Except ε α) := fun a b =>
  match a, b with
  | Except.error e1, Except.error e2 => decidable_of_iff (e1 = e2) (by simp)
  | Except.error _, Except.ok _ => isFalse (fun hc => Except.noConfusion hc)
  | Except.ok _, Except.error _ => isFalse (fun hc => Except.noConfusion hc)
  | Except.ok v1, Except.ok v2 => decidable_of_iff (v1 = v2) (by simp)

namespace AlarmsDispatcher

/-- Modelled from the spec: the `Signer` type lives in the `alarms_dispatcher`
crate, whose module is not among the given sources. Per §3 and §4.1 it carries
a mutable sequence counter; only the counter is relevant to the claims. -/
structure Signer where
  sequence : Nat
deriving DecidableEq

/-- Modelled from the spec: `Signer::tx_confirmed` (§4.1 `advanceSequence`):
the sequence counter is advanced by exactly 1 after a confirmed broadcast. -/
def Signer.tx_confirmed (s : Signer) : Signer :=
  ⟨s.sequence + 1⟩

/-- `deliver_tx` part of the broadcast-commit RPC response
(cosmrs JSON-RPC response accessed in main.rs line 268 as
`tx_commit_response.deliver_tx.data`): status code and response payload. -/
structure DeliverTx where
  code : Nat
  data : List Char
deriving DecidableEq

/-- Broadcast-commit RPC response; `commit_tx` only touches `deliver_tx`. -/
structure TxCommitResponse where
  deliver_tx : DeliverTx
deriving DecidableEq

/-- A Rust `E: ExecuteResponse` instantiation: a serde deserializer from the
response payload bytes plus the `dispatched_alarms` accessor. The engine in
main.rs is generic over it. -/
structure ExecuteResponseImpl (α : Type) where
  from_slice : List Char → Except String α
  dispatched_alarms : α → Nat

/-- Embedding of `commit_tx` (main.rs 237-275) from the broadcast call onward.
Building and signing the transaction (`ContractMsgs::commit`, crate code not
among the sources) is modelled per spec §4.3 as not mutating the signer, so
the broadcast-commit RPC result is taken as a parameter. The source order is:
broadcast (`?` propagates, line 259-265), then
`serde_json_wasm::from_slice(&tx_commit_response.deliver_tx.data)` with `?`
(line 267-270), and only then `signer.tx_confirmed()` (line 272). -/
def commit_tx {α : Type} (E : ExecuteResponseImpl α) (signer : Signer)
    (broadcastResult : Except String TxCommitResponse) :
    Except String α × Signer :=
  match broadcastResult with
  | Except.error e => (Except.error e, signer)
  | Except.ok resp =>
    match E.from_slice resp.deliver_tx.data with
    | Except.error e => (Except.error e, signer)
    | Except.ok r => (Except.ok r, signer.tx_confirmed)

/-- A cosmrs `Coin`: denomination and amount (library dependency). -/
structure Coin where
  amount : Nat
  denom : String
deriving DecidableEq

/-- A cosmrs `Fee`: fee coins plus gas limit (library dependency). -/
structure Fee where
  amount : List Coin
  gas_limit : Nat
deriving DecidableEq

/-- cosmrs `Fee::from_amount_and_gas` (library dependency): a fee holding the
single given coin as amount and the given gas limit, no payer/granter. -/
def Fee.from_amount_and_gas (c : Coin) (gas : Nat) : Fee :=
  ⟨[c], gas⟩

/-- Modelled from the spec: the node configuration getters `config.fee()` and
`config.gas_limit_per_alarm()` (configuration crate not among the sources)
are plain accessors of values fixed at load time (§3 AlarmTypeConfig). -/
structure Node where
  fee : Coin
  gas_limit_per_alarm : Nat

/-- The `Fee` value `commit_tx` passes to `ContractMsgs::commit`
(main.rs 252-257): `Fee::from_amount_and_gas(config.fee().clone(),
config.gas_limit_per_alarm())`. `max_count` mirrors the `commit_tx`
parameter of the source; the source fee expression does not use it. -/
def commit_tx_fee (config : Node) (max_count : Nat) : Fee :=
  Fee.from_amount_and_gas config.fee config.gas_limit_per_alarm

/-- Outcome of one iteration of the `dispatch_alarm` loop body. -/
inductive StepOutcome
  | errorOut : String → StepOutcome
  | done : StepOutcome
  | continuing : StepOutcome
deriving DecidableEq

/-- One iteration of the `dispatch_alarm` loop body (main.rs 199-234):
the parsed query result (transport/remote/parse failures folded into the
`Except`), then, if work remains, `commit_tx`, then the
`dispatched_alarms() == max_alarms` continue/stop decision (main.rs 228).
The returned `Nat` is the number of broadcast-commit RPCs issued (0 or 1). -/
def dispatch_step {α : Type} (E : ExecuteResponseImpl α) (max_alarms : Nat)
    (queryResult : Except String Bool)
    (broadcastResult : Except String TxCommitResponse) (signer : Signer) :
    StepOutcome × Signer × Nat :=
  match queryResult with
  | Except.error e => (StepOutcome.errorOut e, signer, 0)
  | Except.ok remaining =>
    if remaining then
      match commit_tx E signer broadcastResult with
      | (Except.error e, s) => (StepOutcome.errorOut e, s, 1)
      | (Except.ok r, s) =>
        if E.dispatched_alarms r = max_alarms then (StepOutcome.continuing, s, 1)
        else (StepOutcome.done, s, 1)
    else (StepOutcome.done, signer, 0)

/-- Environment of one engine pass: the parsed result of the i-th contract
query and the result of the j-th broadcast-commit RPC. -/
structure DispatchEnv where
  query : Nat → Except String Bool
  broadcast : Nat → Except String TxCommitResponse

/-- Embedding of the `dispatch_alarm` loop (main.rs 186-235), fuel-indexed:
arguments are remaining fuel, queries issued so far, broadcasts issued so
far, and the signer. Returns `none` when fuel runs out, otherwise the
propagated result together with the final signer and the total number of
queries and broadcasts issued. -/
def dispatch_alarm {α : Type} (E : ExecuteResponseImpl α) (env : DispatchEnv)
    (max_alarms : Nat) :
    Nat → Nat → Nat → Signer → Option (Except String Unit × Signer × Nat × Nat)
  | 0, _, _, _ => none
  | fuel + 1, q, b, signer =>
    match dispatch_step E max_alarms (env.query q) (env.broadcast b) signer with
    | (StepOutcome.errorOut e, s, bc) => some (Except.error e, s, q + 1, b + bc)
    | (StepOutcome.done, s, bc) => some (Except.ok (), s, q + 1, b + bc)
    | (StepOutcome.continuing, s, bc) =>
      dispatch_alarm E env max_alarms fuel (q + 1) (b + bc) s

/-- The characters of the canonical serde_json_wasm serialization prefix of
the dispatch response object, up to and including the colon. -/
def dispatchHeader : List Char :=
  ("\x7b\"dispatched\":").toList

/-- Model of serde_json_wasm deserialization of the dispatch response type
(`DispatchResponse` / `OracleDispatchResponse`, JSON object with a single
`dispatched: u32` field): accepts the canonical serialization
`\x7b"dispatched":<digits>\x7d` with an in-range value and rejects
everything else — in particular the empty payload. -/
def parseDispatchResponse (l : List Char) : Except String Nat :=
  if dispatchHeader.isPrefixOf l then
    let rest := l.drop dispatchHeader.length
    let ds := rest.takeWhile Char.isDigit
    if ds ≠ [] ∧ rest.drop ds.length = ['\x7d'] ∧ digitsVal ds < 2 ^ 32 then
      Except.ok (digitsVal ds)
    else Except.error "parse error"
  else Except.error "parse error"

/-- The `OracleDispatchResponse` instantiation of the engine's `E` type
parameter: serde deserialization of the dispatch response, whose
`dispatched_alarms()` accessor returns the count. -/
def oracleDispatchResponse : ExecuteResponseImpl Nat :=
  ⟨parseDispatchResponse, fun n => n⟩

/-- An `ExecuteResponse` instantiation whose deserializer reads the payload
length as the dispatched count; used to drive the engine's control flow
against the modelled queue contract. -/
def natLenResponse : ExecuteResponseImpl Nat :=
  ⟨fun l => Except.ok l.length, fun n => n⟩

/-- Modelled from the spec: the alarm contract's queue semantics (§8): work
remains iff the queue is nonempty, and a batch-execute for up to `B` alarms
processes `min B remaining` of them. In a run starting from counters `(0,0)`
the i-th query observes the queue after `i` full batches and the j-th
broadcast processes the j-th batch, its payload carrying the count. -/
def queueEnv (N B : Nat) : DispatchEnv :=
  ⟨fun i => Except.ok (decide (0 < N - i * B)),
   fun j => Except.ok ⟨⟨0, List.replicate (min B (N - j * B)) 'x'⟩⟩⟩

/-- `chain_comms::interact::get_tx_response::Response` as used by log.rs:
status code, logs, gas metrics and response payload of a committed
transaction. -/
structure TxResponse where
  code : Nat
  raw_log : List Char
  info : List Char
  gas_wanted : Nat
  gas_used : Nat
  data : List Char
deriving DecidableEq

/-- Embedding of `deserialize_and_log` (log.rs 65-85): serde_json_wasm
deserialization of the already-unwrapped payload, `.ok()`-converted — a
failure is logged and yields `None`. The `tx_result` argument is used by the
source only for logging. -/
def deserialize_and_log (tx_result : TxResponse) (dispatch_response : List Char) :
    Option Nat :=
  (parseDispatchResponse dispatch_response).toOption

/-- Embedding of `tx_response_inner` (log.rs 23-63). The Protobuf envelope
unwrap `decode::tx_response_data` lives in the `chain_comms` crate, not among
the sources, and is taken as a parameter. Decoding is attempted only when
`tx_result.code.is_ok()`, i.e. the status code is zero; on a non-zero code
the failure details are logged and no dispatch response is produced. -/
def tx_response_inner (decode_data : TxResponse → Except String (List Char))
    (tx_result : TxResponse) : Option Nat :=
  if tx_result.code = 0 then
    match decode_data tx_result with
    | Except.ok bytes => deserialize_and_log tx_result bytes
    | Except.error _ => none
  else none

/-- Constant declared in main.rs line 34 and used nowhere in it. -/
def MAX_CONSEQUENT_ERRORS_COUNT : Nat := 5

/-- Canonical dispatch-response payload reporting three dispatched alarms. -/
def dispatchJson3 : List Char :=
  ("\x7b\"dispatched\":3\x7d").toList

/-- Embedding of the `dispatch_alarms` outer loop (main.rs 143-184):
each round runs one `dispatch_alarm` pass whose result is propagated with
`?`, then sleeps. `rounds i` is the result of the i-th pass; the loop never
exits on success, so the fuel-indexed model returns the first propagated
error, or `none` if no error occurred within the fuel bound. -/
def dispatch_alarms (rounds : Nat → Except String Unit) :
    Nat → Nat → Option String
  | 0, _ => none
  | fuel + 1, i =>
    match rounds i with
    | Except.error e => some e
    | Except.ok () => dispatch_alarms rounds fuel (i + 1)

end AlarmsDispatcher

namespace Osmosis

/-- Rust `str::trim_end_matches('0')` on a character list: removes every
trailing `'0'`. -/
def trimEndZeros : List Char → List Char
  | [] => []
  | c :: cs =>
    match trimEndZeros cs with
    | [] => if c = '0' then [] else [c]
    | c2 :: cs2 => c :: c2 :: cs2

/-- Rust `str::trim_start_matches('0')` on a character list: removes every
leading `'0'`. -/
def trimStartZeros (l : List Char) : List Char :=
  l.dropWhile (fun c => c = '0')

/-- Rust `str::find('.')`: index of the first `'.'`, if any. -/
def findPoint : List Char → Option Nat
  | [] => none
  | c :: cs => if c = '.' then some 0 else (findPoint cs).map (· + 1)

/-- Rust `String::remove(i)` (the removed character is discarded by the
source): the list without its i-th element. -/
def removeAt (l : List Char) (i : Nat) : List Char :=
  l.take i ++ l.drop (i + 1)

/-- Rust `str::parse::<u128>()`: succeeds exactly on nonempty all-digit
strings whose value fits in 128 bits. -/
def parseU128 (l : List Char) : Except String Nat :=
  if l ≠ [] ∧ l.all Char.isDigit ∧ digitsVal l < 2 ^ 128 then
    Except.ok (digitsVal l)
  else Except.error "invalid u128 literal"

/-- Rust `u128::checked_pow`: `none` exactly when the power overflows. -/
def u128_checked_pow (b e : Nat) : Option Nat :=
  if b ^ e < 2 ^ 128 then some (b ^ e) else none

/-- The pair of u128 fields produced by the deserializer in osmosis.rs. -/
structure Ratio where
  numerator : Nat
  denominator : Nat
deriving DecidableEq

/-- Embedding of `impl Deserialize for Ratio` (osmosis.rs 25-64) on the
deserialized string: when a decimal point is present, trailing zeros are
trimmed, the point is removed at its original index, and the point index is
kept; otherwise the point index is the string length. The numerator parses
the string with leading zeros stripped; the denominator is
`10.checked_pow(len - point)` after a `usize -> u32` conversion of the
exponent, with the numerator field evaluated first. -/
def Ratio.deserialize (s : List Char) : Except String Ratio :=
  let pt : Nat × List Char :=
    match findPoint s with
    | some point => (point, removeAt (trimEndZeros s) point)
    | none => (s.length, s)
  match parseU128 (trimStartZeros pt.2) with
  | Except.error e => Except.error e
  | Except.ok numerator =>
    if pt.2.length - pt.1 < 2 ^ 32 then
      match u128_checked_pow 10 (pt.2.length - pt.1) with
      | some denominator => Except.ok ⟨numerator, denominator⟩
      | none => Except.error "cannot calculate ratio: exponent too big"
    else Except.error "exponent conversion failed"

/-- Digits before the first decimal point of a string (all of it when no
point is present); spec-side decomposition used to state what a numeral
string denotes. -/
def wholePart (s : List Char) : List Char :=
  s.takeWhile (fun c => c ≠ '.')

/-- Digits after the first decimal point of a string (empty when no point is
present); spec-side decomposition used to state what a numeral string
denotes. -/
def fracPart (s : List Char) : List Char :=
  (s.dropWhile (fun c => c ≠ '.')).tail

/-- The input shape the claim speaks about: decimal digits with at most one
decimal point. -/
def WellFormed (s : List Char) : Prop :=
  (∀ c ∈ s, c.isDigit = true ∨ c = '.') ∧ s.count '.' ≤ 1

instance (s : List Char) : Decidable (WellFormed s) := by
  unfold WellFormed
  infer_instance

/-- Numerator of the rational value denoted by a numeral string, over the
denominator `10 ^ (fracPart s).length`. -/
def denotedNum (s : List Char) : Nat :=
  digitsVal (wholePart s ++ fracPart s)

/-- The exact rational value denoted by a numeral string. -/
def denotedVal (s : List Char) : ℚ :=
  (denotedNum s : ℚ) / (10 : ℚ) ^ (fracPart s).length

/-- Sample spot-price string with a fractional part and trailing zeros. -/
def ratioSample : List Char :=
  ("12.50").toList

/-- Positive numeral whose denominator exponent (39 fractional digits)
overflows `u128::checked_pow`. -/
def ratioOverflowSample : List Char :=
  ("0." ++ String.mk (List.replicate 38 '0') ++ "1").toList

/-- `Ticker` (market-data-feeder/src/config/mod.rs line 16). -/
abbrev Ticker : Type := String

/-- `Symbol` (market-data-feeder/src/config/mod.rs line 18). -/
abbrev Symbol : Type := String

/-- `Coin` of the provider crate (src/provider/base/mod.rs 8-13). -/
structure Coin where
  amount : Nat
  symbol : String
deriving DecidableEq

/-- `Price` (src/provider/base/mod.rs 15-20). -/
structure Price where
  amount : Coin
  amount_quote : Coin
deriving DecidableEq

/-- `Price::new` (src/provider/base/mod.rs 23-38): base coin from the first
symbol and amount, quote coin from the second. -/
def Price.new (symbol1 : String) (base : Nat) (symbol2 : String) (quote : Nat) :
    Price :=
  ⟨⟨base, symbol1⟩, ⟨quote, symbol2⟩⟩

/-- Target leg of a supported swap (`swap.to` in osmosis.rs 117-120):
destination ticker and pool identifier. -/
structure SwapLeg where
  target : Ticker
  pool_id : Nat

/-- A supported denom pair returned by `get_supported_denom_pairs` (provider
crate): source ticker and target leg. -/
structure SwapPair where
  fromTicker : Ticker
  toLeg : SwapLeg

/-- Result of one HTTP spot-price request (reqwest response, osmosis.rs
126-143): the status code, and the result of `resp.json::<AssetPrice>()`
giving the deserialized spot-price ratio fields. -/
structure HttpResp where
  status : Nat
  json : Except String Ratio
deriving DecidableEq

/-- The `filter_map` of `get_spot_prices` (osmosis.rs 115-124): keep only
swaps whose source and target tickers both resolve in the client's
currencies map, pairing each ticker with its symbol; everything else is
silently dropped. `List.lookup` models `BTreeMap::get` on the unique-keyed
map. -/
def spot_prices_queries (supported : List SwapPair)
    (currencies : List (Ticker × Symbol)) :
    List (Nat × (Ticker × Symbol) × (Ticker × Symbol)) :=
  supported.filterMap (fun swap =>
    match List.lookup swap.fromTicker currencies,
        List.lookup swap.toLeg.target currencies with
    | some from_symbol, some to_symbol =>
      some (swap.toLeg.pool_id, (swap.fromTicker, from_symbol),
        (swap.toLeg.target, to_symbol))
    | _, _ => none)

/-- The body of the `for` loop of `get_spot_prices` (osmosis.rs 125-154),
over the filtered queries: send the request (`?` on transport failure); on
status 200 deserialize the body (`?` on failure) and push the price; on any
other status log and move on to the next pair. -/
def spot_prices_loop
    (send : Nat → Symbol → Symbol → Except String HttpResp) :
    List (Nat × (Ticker × Symbol) × (Ticker × Symbol)) →
    Except String (List Price)
  | [] => Except.ok []
  | (pool_id, (from_ticker, from_symbol), (to_ticker, to_symbol)) :: rest =>
    match send pool_id from_symbol to_symbol with
    | Except.error e => Except.error e
    | Except.ok resp =>
      if resp.status = 200 then
        match resp.json with
        | Except.error e => Except.error e
        | Except.ok spot_price =>
          match spot_prices_loop send rest with
          | Except.error e => Except.error e
          | Except.ok prices =>
            Except.ok (Price.new from_ticker spot_price.numerator to_ticker
              spot_price.denominator :: prices)
      else spot_prices_loop send rest

/-- Embedding of `Client::get_spot_prices` (osmosis.rs 105-157). The
supported pairs are the successful result of `get_supported_denom_pairs`
(provider crate code not among the sources); `send` models the HTTP GET
against `pools/<pool_id>/prices` with the two symbols as query parameters. -/
def get_spot_prices (supported : List SwapPair)
    (currencies : List (Ticker × Symbol))
    (send : Nat → Symbol → Symbol → Except String HttpResp) :
    Except String (List Price) :=
  spot_prices_loop send (spot_prices_queries supported currencies)

/-- Spec-side description of the successful result: one price per queried
pair whose response has status 200, in order, all other pairs contributing
nothing. -/
def spec_ok_prices (send : Nat → Symbol → Symbol → Except String HttpResp)
    (queries : List (Nat × (Ticker × Symbol) × (Ticker × Symbol))) :
    List Price :=
  queries.filterMap (fun q =>
    match send q.1 q.2.1.2 q.2.2.2 with
    | Except.ok resp =>
      if resp.status = 200 then
        match resp.json with
        | Except.ok spot_price =>
          some (Price.new q.2.1.1 spot_price.numerator q.2.2.1
            spot_price.denominator)
        | Except.error _ => none
      else none
    | Except.error _ => none)

/-- Sample currencies map: tickers A, B, C resolve; D does not. -/
def sampleCurrencies : List (Ticker × Symbol) :=
  [("A", "ua"), ("B", "ub"), ("C", "uc")]

/-- Sample supported pairs: A-B (pool 1), A-C (pool 2), and A-D (pool 3),
whose target ticker is absent from the currencies map. -/
def sampleSupported : List SwapPair :=
  [⟨"A", ⟨"B", 1⟩⟩, ⟨"A", ⟨"C", 2⟩⟩, ⟨"A", ⟨"D", 3⟩⟩]

/-- Sample HTTP oracle: pool 1 answers with status 500, pool 2 with status
200 and a parsable body, and pool 3 (never queried) would be a transport
error. -/
def sampleSend (pool_id : Nat) (base quote : Symbol) :
    Except String HttpResp :=
  if pool_id = 1 then Except.ok ⟨500, Except.error "ignored"⟩
  else if pool_id = 2 then Except.ok ⟨200, Except.ok ⟨3, 2⟩⟩
  else Except.error "transport"

/-- Variant of `sampleSend` differing only at the never-queried pool 3. -/
def sampleSendAlt (pool_id : Nat) (base quote : Symbol) :
    Except String HttpResp :=
  if pool_id = 3 then Except.ok ⟨200, Except.ok ⟨9, 9⟩⟩
  else sampleSend pool_id base quote

end Osmosis


/-!
Theorems. Claim theorems are marked with their claim identifier; helper
lemmas carry no claim marking.
-/

namespace AlarmsDispatcher

/-- C1 counterexample: a commit outcome is received (the broadcast-commit RPC
returned a response), yet because its payload does not deserialize the
source returns before `signer.tx_confirmed()` and the sequence counter stays
at 7 instead of advancing to 8 as the claim requires. -/
theorem commit_tx_outcome_received_without_advance :
    commit_tx oracleDispatchResponse ⟨7⟩ (Except.ok ⟨⟨0, []⟩⟩) =
      (Except.error "parse error", ⟨7⟩) ∧
    Signer.tx_confirmed ⟨7⟩ ≠ (⟨7⟩ : Signer) := by
  decide

/-- C1 (amended): in `commit_tx` the sequence counter advances by exactly 1
exactly when the broadcast returned a commit outcome whose payload
deserializes; it is unchanged on a transport error and also unchanged on an
outcome whose payload fails to deserialize, whose error is propagated. -/
theorem commit_tx_sequence_characterization {α : Type}
    (E : ExecuteResponseImpl α) (signer : Signer)
    (br : Except String TxCommitResponse) :
    (∀ e, br = Except.error e → commit_tx E signer br = (Except.error e, signer)) ∧
    (∀ resp r, br = Except.ok resp →
      E.from_slice resp.deliver_tx.data = Except.ok r →
      commit_tx E signer br = (Except.ok r, ⟨signer.sequence + 1⟩)) ∧
    (∀ resp e, br = Except.ok resp →
      E.from_slice resp.deliver_tx.data = Except.error e →
      commit_tx E signer br = (Except.error e, signer)) := by
  refine ⟨?_, ?_, ?_⟩
  · rintro e rfl
    rfl
  · rintro resp r rfl hfs
    simp [commit_tx, hfs, Signer.tx_confirmed]
  · rintro resp e rfl hfs
    simp [commit_tx, hfs]

/-- Witness for C1's amended theorem: a successfully parsed outcome advances
the sequence from 7 to 8; a transport error leaves it at 7. -/
theorem commit_tx_sequence_characterization_witness :
    commit_tx oracleDispatchResponse ⟨7⟩ (Except.ok ⟨⟨0, dispatchJson3⟩⟩) =
      (Except.ok 3, ⟨8⟩) ∧
    commit_tx oracleDispatchResponse ⟨7⟩ (Except.error "transport") =
      (Except.error "transport", ⟨7⟩) :=
  ⟨(commit_tx_sequence_characterization oracleDispatchResponse ⟨7⟩
      (Except.ok ⟨⟨0, dispatchJson3⟩⟩)).2.1 ⟨⟨0, dispatchJson3⟩⟩ 3 rfl (by decide),
   (commit_tx_sequence_characterization oracleDispatchResponse ⟨7⟩
      (Except.error "transport")).1 "transport" rfl⟩

/-- C2: on a status-success commit outcome (code 0) whose payload fails to
deserialize, the engine iteration does not treat the count as 0 and finish
with `Done`; it propagates the deserialization error out of the pass
(`StepOutcome.errorOut`) and the sequence counter has not advanced. -/
theorem dispatch_step_status_success_malformed_payload :
    dispatch_step oracleDispatchResponse 10 (Except.ok true)
        (Except.ok ⟨⟨0, []⟩⟩) ⟨7⟩ =
      (StepOutcome.errorOut "parse error", ⟨7⟩, 1) := by
  decide

/-- C3 counterexample: with `gas_limit_per_alarm = 100`, a configured fee
coin of 25 and `max_count = 3`, the built fee keeps gas limit 100 and amount
25, not the `100 × 3 = 300` the claim requires for both. -/
theorem commit_tx_fee_concrete :
    commit_tx_fee ⟨⟨25, "unls"⟩, 100⟩ 3 = ⟨[⟨25, "unls"⟩], 100⟩ ∧
    (100 : Nat) ≠ 100 * 3 := by
  constructor
  · rfl
  · decide

/-- C3 (amended): the fee attached by `commit_tx` carries the configured fee
coin as its amount and the configured `gas_limit_per_alarm` as its gas
limit; neither component depends on `max_count`. -/
theorem commit_tx_fee_independent_of_batch (config : Node) (mc mc' : Nat) :
    (commit_tx_fee config mc).gas_limit = config.gas_limit_per_alarm ∧
    (commit_tx_fee config mc).amount = [config.fee] ∧
    commit_tx_fee config mc = commit_tx_fee config mc' := by
  exact ⟨rfl, rfl, rfl⟩

/-- C4: when an engine iteration obtains a decoded processed count, it
transitions to `Continuing` exactly when the count equals the configured
batch size, and to `Done` on any other count. -/
theorem dispatch_step_continuing_iff_full_batch {α : Type}
    (E : ExecuteResponseImpl α) (max_alarms : Nat)
    (br : Except String TxCommitResponse) (signer s : Signer) (r : α)
    (h : commit_tx E signer br = (Except.ok r, s)) :
    (((dispatch_step E max_alarms (Except.ok true) br signer).1 =
        StepOutcome.continuing) ↔ E.dispatched_alarms r = max_alarms) ∧
    (E.dispatched_alarms r ≠ max_alarms →
      (dispatch_step E max_alarms (Except.ok true) br signer).1 =
        StepOutcome.done) := by
  constructor
  · constructor
    · intro hc
      by_contra hne
      simp [dispatch_step, h, hne] at hc
    · intro he
      simp [dispatch_step, h, he]
  · intro hne
    simp [dispatch_step, h, hne]

/-- Witness for C4: a payload of length 2 with batch size 2 yields
`Continuing`; the `Done` direction is vacuous there. -/
theorem dispatch_step_continuing_iff_full_batch_witness :
    (((dispatch_step natLenResponse 2 (Except.ok true)
        (Except.ok ⟨⟨0, ['x', 'x']⟩⟩) ⟨0⟩).1 = StepOutcome.continuing) ↔
      (2 : Nat) = 2) ∧
    ((2 : Nat) ≠ 2 →
      (dispatch_step natLenResponse 2 (Except.ok true)
        (Except.ok ⟨⟨0, ['x', 'x']⟩⟩) ⟨0⟩).1 = StepOutcome.done) :=
  dispatch_step_continuing_iff_full_batch natLenResponse 2
    (Except.ok ⟨⟨0, ['x', 'x']⟩⟩) ⟨0⟩ ⟨1⟩ 2 rfl

/-- C5: when the first contract query of a pass reports that no work
remains, the pass issues zero broadcasts, leaves the signer (and so the
sequence counter) unchanged, and finishes with `Done` after that single
query. -/
theorem dispatch_alarm_no_work_zero_broadcasts {α : Type}
    (E : ExecuteResponseImpl α) (env : DispatchEnv) (max_alarms fuel : Nat)
    (signer : Signer) (h : env.query 0 = Except.ok false) :
    dispatch_alarm E env max_alarms (fuel + 1) 0 0 signer =
      some (Except.ok (), signer, 1, 0) := by
  simp [dispatch_alarm, dispatch_step, h]

/-- Witness for C5: an environment whose query reports no remaining work
makes the pass end at once with no broadcast. -/
theorem dispatch_alarm_no_work_zero_broadcasts_witness :
    dispatch_alarm natLenResponse
        ⟨fun _ => Except.ok false, fun _ => Except.error "unused"⟩ 10 3 0 0
        ⟨4⟩ =
      some (Except.ok (), ⟨4⟩, 1, 0) :=
  dispatch_alarm_no_work_zero_broadcasts natLenResponse
    ⟨fun _ => Except.ok false, fun _ => Except.error "unused"⟩ 10 2 ⟨4⟩ rfl

/-- C6 counterexample: on a commit outcome with non-zero status code 1 whose
payload happens to decode, the engine's `commit_tx` path deserializes it
anyway, obtains processed count 3, advances the sequence, and with batch
size 3 the iteration transitions to `Continuing` — not to `Done` without
decoding as the claim requires. -/
theorem commit_tx_decodes_nonzero_status :
    dispatch_step oracleDispatchResponse 3 (Except.ok true)
        (Except.ok ⟨⟨1, dispatchJson3⟩⟩) ⟨0⟩ =
      (StepOutcome.continuing, ⟨1⟩, 1) ∧
    (1 : Nat) ≠ 0 := by
  decide

/-- C6 (amended): the status-code guard lives in the logging helper, not in
the engine: `tx_response_inner` yields no dispatch response and attempts no
decoding when the status code is non-zero, while the engine's `commit_tx`
deserializes the outcome payload regardless of the status code, its result
determined by the payload alone. -/
theorem status_guard_in_logger_not_engine :
    (∀ (decode_data : TxResponse → Except String (List Char))
        (tx_result : TxResponse), tx_result.code ≠ 0 →
      tx_response_inner decode_data tx_result = none) ∧
    (∀ (α : Type) (E : ExecuteResponseImpl α) (signer : Signer)
        (resp : TxCommitResponse) (r : α),
      E.from_slice resp.deliver_tx.data = Except.ok r →
      commit_tx E signer (Except.ok resp) = (Except.ok r, signer.tx_confirmed)) := by
  constructor
  · intro decode_data tx_result hcode
    simp [tx_response_inner, hcode]
  · intro α E signer resp r hfs
    simp [commit_tx, hfs]

/-- Witness for C6's amended theorem: a code-5 response produces no count in
the logger, and `commit_tx` decodes a code-1 outcome to count 3, advancing
the sequence. -/
theorem status_guard_in_logger_not_engine_witness :
    tx_response_inner (fun _ => Except.ok []) ⟨5, [], [], 0, 0, []⟩ = none ∧
    commit_tx oracleDispatchResponse ⟨0⟩ (Except.ok ⟨⟨1, dispatchJson3⟩⟩) =
      (Except.ok 3, ⟨1⟩) :=
  ⟨status_guard_in_logger_not_engine.1 (fun _ => Except.ok [])
      ⟨5, [], [], 0, 0, []⟩ (by decide),
   status_guard_in_logger_not_engine.2 Nat oracleDispatchResponse ⟨0⟩
      ⟨⟨1, dispatchJson3⟩⟩ 3 (by decide)⟩

end AlarmsDispatcher

namespace AlarmsDispatcher

/-- Helper: starting a pass against a queue holding `(i + k) · B` alarms with
counters both at `i`, the engine performs exactly `k` further broadcasts and
`k + 1` further queries, advances the sequence by `k`, and finishes `Done`. -/
theorem dispatch_alarm_queue_run (B : Nat) (hB : 0 < B) :
    ∀ (k i fuel : Nat) (signer : Signer), k + 1 ≤ fuel →
      dispatch_alarm natLenResponse (queueEnv ((i + k) * B) B) B fuel i i
          signer =
        some (Except.ok (), ⟨signer.sequence + k⟩, i + k + 1, i + k) := by
  intro k
  induction k with
  | zero =>
    intro i fuel signer hfuel
    obtain ⟨f, rfl⟩ : ∃ f, fuel = f + 1 := ⟨fuel - 1, by omega⟩
    have hq : (queueEnv (i * B) B).query i = Except.ok false := by
      simp [queueEnv]
    simp [dispatch_alarm, dispatch_step, hq]
  | succ k ih =>
    intro i fuel signer hfuel
    obtain ⟨f, rfl⟩ : ∃ f, fuel = f + 1 := ⟨fuel - 1, by omega⟩
    have hmul : (i + (k + 1)) * B = i * B + (k + 1) * B := by ring
    have hsub : (i + (k + 1)) * B - i * B = (k + 1) * B := by omega
    have hpos : 0 < (k + 1) * B := Nat.mul_pos (Nat.succ_pos k) hB
    have hq : (queueEnv ((i + (k + 1)) * B) B).query i = Except.ok true := by
      simp only [queueEnv, hsub]
      simp [hpos]
    have hmin : min B ((k + 1) * B) = B :=
      Nat.min_eq_left (by calc
        B = 1 * B := (one_mul B).symm
        _ ≤ (k + 1) * B := Nat.mul_le_mul_right B (by omega))
    have hb : (queueEnv ((i + (k + 1)) * B) B).broadcast i =
        Except.ok ⟨⟨0, List.replicate B 'x'⟩⟩ := by
      simp only [queueEnv, hsub, hmin]
    have hstep : dispatch_step natLenResponse B
        ((queueEnv ((i + (k + 1)) * B) B).query i)
        ((queueEnv ((i + (k + 1)) * B) B).broadcast i) signer =
        (StepOutcome.continuing, ⟨signer.sequence + 1⟩, 1) := by
      rw [hq, hb]
      simp [dispatch_step, commit_tx, natLenResponse, Signer.tx_confirmed]
    have hidx : (i + 1) + k = i + (k + 1) := by omega
    have ihx := ih (i + 1) f (⟨signer.sequence + 1⟩ : Signer) (by omega)
    rw [hidx] at ihx
    simp only [dispatch_alarm, hstep]
    rw [ihx]
    have h1 : signer.sequence + 1 + k = signer.sequence + (k + 1) := by omega
    rw [h1]

end AlarmsDispatcher

namespace AlarmsDispatcher

/-- C7 (amended): when the queue holds an exact positive multiple `k · B` of
the batch size, the engine processes the whole queue in `k` broadcasts (the
sequence advancing by `k`), then performs one extra pass consisting of a
query only — whose "work remains" predicate is false — reaching `Done` with
`k + 1` queries and no extra broadcast; the tie-break costs at most one
extra query and never an extra broadcast. -/
theorem dispatch_alarm_exact_multiple_one_extra_query (B k fuel : Nat)
    (signer : Signer) (hB : 0 < B) (hk : 0 < k) (hfuel : k + 1 ≤ fuel) :
    dispatch_alarm natLenResponse (queueEnv (k * B) B) B fuel 0 0 signer =
      some (Except.ok (), ⟨signer.sequence + k⟩, k + 1, k) := by
  have h := dispatch_alarm_queue_run B hB k 0 fuel signer hfuel
  simpa using h

/-- Witness for C7's amended theorem: queue 10, batch size 10 — one
broadcast, two queries, sequence advanced by 1, `Done`. -/
theorem dispatch_alarm_exact_multiple_one_extra_query_witness :
    dispatch_alarm natLenResponse (queueEnv (1 * 10) 10) 10 5 0 0 ⟨0⟩ =
      some (Except.ok (), ⟨1⟩, 2, 1) :=
  dispatch_alarm_exact_multiple_one_extra_query 10 1 5 ⟨0⟩ (by decide)
    (by decide) (by decide)

/-- C7 counterexample: with queue exactly 10 and batch size 10 the engine
issues exactly 1 broadcast, not the 2 the claim requires (the claimed extra
no-op pass would contain a second broadcast and a zero-result decode; the
actual extra pass is a query only). -/
theorem dispatch_alarm_exact_multiple_single_broadcast :
    dispatch_alarm natLenResponse (queueEnv 10 10) 10 5 0 0 ⟨0⟩ =
      some (Except.ok (), ⟨1⟩, 2, 1) ∧
    (1 : Nat) ≠ 2 := by
  decide

/-- Helper: the outer loop, started at round `i`, propagates the first error
among the per-round results as soon as it occurs. -/
theorem dispatch_alarms_run (rounds : Nat → Except String Unit) (e : String) :
    ∀ (k i fuel : Nat), (∀ j, j < k → rounds (i + j) = Except.ok ()) →
      rounds (i + k) = Except.error e → k < fuel →
      dispatch_alarms rounds fuel i = some e := by
  intro k
  induction k with
  | zero =>
    intro i fuel hok herr hfuel
    obtain ⟨f, rfl⟩ : ∃ f, fuel = f + 1 := ⟨fuel - 1, by omega⟩
    rw [Nat.add_zero] at herr
    simp [dispatch_alarms, herr]
  | succ k ih =>
    intro i fuel hok herr hfuel
    obtain ⟨f, rfl⟩ : ∃ f, fuel = f + 1 := ⟨fuel - 1, by omega⟩
    have h0 : rounds i = Except.ok () := by
      have := hok 0 (Nat.succ_pos k)
      simpa using this
    have hok2 : ∀ j, j < k → rounds ((i + 1) + j) = Except.ok () := by
      intro j hj
      have := hok (j + 1) (by omega)
      have harr : i + (j + 1) = (i + 1) + j := by omega
      rwa [harr] at this
    have herr2 : rounds ((i + 1) + k) = Except.error e := by
      have harr : i + (k + 1) = (i + 1) + k := by omega
      rwa [harr] at herr
    simp only [dispatch_alarms, h0]
    exact ih (i + 1) f hok2 herr2 (by omega)

/-- C8: the first error of any round of the outer dispatch loop is
propagated immediately, terminating the loop at that round — no retry
counting happens, although the declared `MAX_CONSEQUENT_ERRORS_COUNT`
constant (value 5) would allow it. -/
theorem dispatch_alarms_aborts_on_first_error
    (rounds : Nat → Except String Unit) (k fuel : Nat) (e : String)
    (hok : ∀ j, j < k → rounds j = Except.ok ())
    (herr : rounds k = Except.error e) (hfuel : k < fuel) :
    dispatch_alarms rounds fuel 0 = some e ∧
    MAX_CONSEQUENT_ERRORS_COUNT = 5 := by
  refine ⟨?_, rfl⟩
  have hok2 : ∀ j, j < k → rounds (0 + j) = Except.ok () := by
    intro j hj
    simpa using hok j hj
  have herr2 : rounds (0 + k) = Except.error e := by
    simpa using herr
  exact dispatch_alarms_run rounds e k 0 fuel hok2 herr2 hfuel

/-- Witness for C8: two successful rounds followed by an error terminate the
loop with that error on its first occurrence. -/
theorem dispatch_alarms_aborts_on_first_error_witness :
    dispatch_alarms
        (fun j => if j < 2 then Except.ok () else Except.error "boom") 4 0 =
      some "boom" ∧
    MAX_CONSEQUENT_ERRORS_COUNT = 5 :=
  dispatch_alarms_aborts_on_first_error
    (fun j => if j < 2 then Except.ok () else Except.error "boom") 2 4 "boom"
    (fun j hj => by simp [hj]) (by decide) (by decide)

end AlarmsDispatcher

namespace Osmosis

theorem digitsVal_append (l1 l2 : List Char) :
    digitsVal (l1 ++ l2) = digitsVal l1 * 10 ^ l2.length + digitsVal l2 := by
  induction l1 with
  | nil => simp [digitsVal]
  | cons c cs ih =>
    simp only [List.cons_append, digitsVal, List.append_eq, ih,
      List.length_append]
    ring

theorem digitsVal_replicate_zero (k : Nat) :
    digitsVal (List.replicate k '0') = 0 := by
  induction k with
  | zero => rfl
  | succ k ih => simp [List.replicate, digitsVal, ih]

theorem trimEndZeros_decomposition (l : List Char) :
    ∃ k, l = trimEndZeros l ++ List.replicate k '0' := by
  induction l with
  | nil => exact ⟨0, rfl⟩
  | cons c cs ih =>
    obtain ⟨k, hk⟩ := ih
    cases h : trimEndZeros cs with
    | nil =>
      by_cases hc : c = '0'
      · subst hc
        refine ⟨k + 1, ?_⟩
        have h2 : trimEndZeros ('0' :: cs) = [] := by
          simp [trimEndZeros, h]
        rw [h2, List.nil_append, List.replicate_succ]
        rw [h, List.nil_append] at hk
        exact congrArg (List.cons '0') hk
      · refine ⟨k, ?_⟩
        have h2 : trimEndZeros (c :: cs) = [c] := by
          simp [trimEndZeros, h, hc]
        rw [h2, List.cons_append, List.nil_append]
        rw [h, List.nil_append] at hk
        exact congrArg (List.cons c) hk
    | cons c2 cs2 =>
      refine ⟨k, ?_⟩
      have h2 : trimEndZeros (c :: cs) = c :: trimEndZeros cs := by
        simp [trimEndZeros, h]
      rw [h2, List.cons_append]
      exact congrArg (List.cons c) hk

theorem trimEndZeros_cons_of_ne (c : Char) (l : List Char) (hc : c ≠ '0') :
    trimEndZeros (c :: l) = c :: trimEndZeros l := by
  cases h : trimEndZeros l with
  | nil => simp [trimEndZeros, h, hc]
  | cons a as => simp [trimEndZeros, h]

theorem trimEndZeros_append (xs ys : List Char)
    (hys : trimEndZeros ys ≠ []) :
    trimEndZeros (xs ++ ys) = xs ++ trimEndZeros ys := by
  induction xs with
  | nil => simp
  | cons x xs ih =>
    simp only [List.cons_append, trimEndZeros, List.append_eq, ih]
    cases h : xs ++ trimEndZeros ys with
    | nil => exact absurd (List.append_eq_nil.mp h).2 hys
    | cons a as => rfl

end Osmosis

namespace Osmosis

theorem char_eq_zero_of_digit (c : Char) (hd : c.isDigit = true)
    (h : c.toNat - Char.toNat '0' = 0) : c = '0' := by
  have h48 : 48 ≤ c.toNat := by
    simp [Char.isDigit] at hd
    exact hd.1
  have h0 : Char.toNat '0' = 48 := rfl
  rw [h0] at h
  have : c.toNat = 48 := by omega
  exact Char.eq_of_val_eq (UInt32.eq_of_toBitVec_eq (BitVec.eq_of_toNat_eq this))

theorem digitsVal_eq_zero_iff (l : List Char)
    (hd : ∀ c ∈ l, c.isDigit = true) :
    digitsVal l = 0 ↔ ∀ c ∈ l, c = '0' := by
  induction l with
  | nil => simp [digitsVal]
  | cons c cs ih =>
    have hdc : c.isDigit = true := hd c (List.mem_cons_self c cs)
    have hdcs : ∀ x ∈ cs, x.isDigit = true :=
      fun x hx => hd x (List.mem_cons_of_mem c hx)
    constructor
    · intro h0
      simp only [digitsVal] at h0
      have hpow : 0 < 10 ^ cs.length := Nat.pos_pow_of_pos _ (by norm_num)
      have hparts : (c.toNat - Char.toNat '0') * 10 ^ cs.length = 0 ∧
          digitsVal cs = 0 := by omega
      have hc0 : c.toNat - Char.toNat '0' = 0 := by
        rcases Nat.mul_eq_zero.mp hparts.1 with h | h
        · exact h
        · omega
      intro x hx
      rcases List.mem_cons.mp hx with h | h
      · subst h
        exact char_eq_zero_of_digit x hdc hc0
      · exact ((ih hdcs).mp hparts.2) x h
    · intro hall
      have hc : c = '0' := hall c (List.mem_cons_self c cs)
      have hcs : digitsVal cs = 0 :=
        (ih hdcs).mpr fun x hx => hall x (List.mem_cons_of_mem c hx)
      subst hc
      simp [digitsVal, hcs]

theorem trimStart_digitsVal (l : List Char) :
    digitsVal (trimStartZeros l) = digitsVal l := by
  induction l with
  | nil => rfl
  | cons c cs ih =>
    by_cases hc : c = '0'
    · subst hc
      have h1 : trimStartZeros ('0' :: cs) = trimStartZeros cs := by
        simp [trimStartZeros, List.dropWhile_cons]
      rw [h1, ih]
      simp [digitsVal]
    · have h1 : trimStartZeros (c :: cs) = c :: cs := by
        simp [trimStartZeros, List.dropWhile_cons, hc]
      rw [h1]

theorem trimStart_eq_nil_iff (l : List Char) :
    trimStartZeros l = [] ↔ ∀ c ∈ l, c = '0' := by
  simp [trimStartZeros, List.dropWhile_eq_nil_iff]

theorem findPoint_of_not_mem (l : List Char) (h : '.' ∉ l) :
    findPoint l = none := by
  induction l with
  | nil => rfl
  | cons c cs ih =>
    have hc : ¬c = '.' := fun hc => h (hc ▸ List.mem_cons_self c cs)
    have hcs : '.' ∉ cs := fun hm => h (List.mem_cons_of_mem c hm)
    simp [findPoint, hc, ih hcs]

theorem findPoint_append (w f : List Char) (hw : ∀ c ∈ w, c ≠ '.') :
    findPoint (w ++ '.' :: f) = some w.length := by
  induction w with
  | nil => simp [findPoint]
  | cons c cs ih =>
    have hc : ¬c = '.' := hw c (List.mem_cons_self c cs)
    have ihx := ih fun x hx => hw x (List.mem_cons_of_mem c hx)
    simp [findPoint, hc, ihx]

theorem removeAt_append (w t : List Char) (c : Char) :
    removeAt (w ++ c :: t) w.length = w ++ t := by
  induction w with
  | nil => simp [removeAt]
  | cons x xs ih =>
    simp only [removeAt] at ih
    simp only [List.cons_append, removeAt, List.length_cons,
      List.take_succ_cons, List.drop_succ_cons]
    exact congrArg (List.cons x) ih

theorem split_at_point (s : List Char) (h : '.' ∈ s) :
    s = wholePart s ++ '.' :: fracPart s := by
  induction s with
  | nil => cases h
  | cons c cs ih =>
    by_cases hc : c = '.'
    · subst hc
      have h1 : wholePart ('.' :: cs) = [] := by
        simp [wholePart, List.takeWhile_cons]
      have h2 : fracPart ('.' :: cs) = cs := by
        simp [fracPart, List.dropWhile_cons]
      rw [h1, h2]
      simp
    · have hmem : '.' ∈ cs := by
        rcases List.mem_cons.mp h with h | h
        · exact absurd h.symm hc
        · exact h
      have h1 : wholePart (c :: cs) = c :: wholePart cs := by
        simp [wholePart, List.takeWhile_cons, hc]
      have h2 : fracPart (c :: cs) = fracPart cs := by
        simp [fracPart, List.dropWhile_cons, hc]
      rw [h1, h2, List.cons_append]
      exact congrArg (List.cons c) (ih hmem)

theorem wholePart_of_not_mem (s : List Char) (h : '.' ∉ s) :
    wholePart s = s := by
  induction s with
  | nil => rfl
  | cons c cs ih =>
    have hc : ¬c = '.' := fun hc => h (hc ▸ List.mem_cons_self c cs)
    have hcs : '.' ∉ cs := fun hm => h (List.mem_cons_of_mem c hm)
    have h1 : wholePart (c :: cs) = c :: wholePart cs := by
      simp [wholePart, List.takeWhile_cons, hc]
    rw [h1, ih hcs]

theorem fracPart_of_not_mem (s : List Char) (h : '.' ∉ s) :
    fracPart s = [] := by
  induction s with
  | nil => rfl
  | cons c cs ih =>
    have hc : ¬c = '.' := fun hc => h (hc ▸ List.mem_cons_self c cs)
    have hcs : '.' ∉ cs := fun hm => h (List.mem_cons_of_mem c hm)
    have h1 : fracPart (c :: cs) = fracPart cs := by
      simp [fracPart, List.dropWhile_cons, hc]
    rw [h1, ih hcs]

theorem parseU128_ok (l : List Char) (hne : l ≠ [])
    (hd : ∀ c ∈ l, c.isDigit = true) (hlt : digitsVal l < 2 ^ 128) :
    parseU128 l = Except.ok (digitsVal l) := by
  unfold parseU128
  rw [if_pos ⟨hne, List.all_eq_true.mpr hd, hlt⟩]

end Osmosis

namespace Osmosis

theorem mem_wholePart {c : Char} {s : List Char} (h : c ∈ wholePart s) :
    c ∈ s :=
  (List.takeWhile_prefix _).subset h

theorem wholePart_no_point {c : Char} {s : List Char} (h : c ∈ wholePart s) :
    c ≠ '.' := by
  have := List.mem_takeWhile_imp h
  simpa using this

theorem mem_fracPart {c : Char} {s : List Char} (h : c ∈ fracPart s) :
    c ∈ s :=
  (List.dropWhile_suffix _).subset (List.mem_of_mem_tail h)

theorem mem_trimEndZeros {c : Char} {l : List Char} (h : c ∈ trimEndZeros l) :
    c ∈ l := by
  obtain ⟨k, hk⟩ := trimEndZeros_decomposition l
  rw [hk]
  exact List.mem_append_left _ h

theorem mem_trimStartZeros {c : Char} {l : List Char}
    (h : c ∈ trimStartZeros l) : c ∈ l :=
  (List.dropWhile_suffix _).subset h

end Osmosis

namespace Osmosis

theorem deserialize_eval_point (s w f2 : List Char)
    (hfind : findPoint s = some w.length)
    (hrem : removeAt (trimEndZeros s) w.length = w ++ f2) :
    Ratio.deserialize s =
      match parseU128 (trimStartZeros (w ++ f2)) with
      | Except.error e => Except.error e
      | Except.ok numerator =>
        if (w ++ f2).length - w.length < 2 ^ 32 then
          match u128_checked_pow 10 ((w ++ f2).length - w.length) with
          | some denominator => Except.ok ⟨numerator, denominator⟩
          | none => Except.error "cannot calculate ratio: exponent too big"
        else Except.error "exponent conversion failed" := by
  simp only [Ratio.deserialize, hfind, hrem]

theorem deserialize_eval_nopoint (s : List Char)
    (hfind : findPoint s = none) :
    Ratio.deserialize s =
      match parseU128 (trimStartZeros s) with
      | Except.error e => Except.error e
      | Except.ok numerator =>
        if s.length - s.length < 2 ^ 32 then
          match u128_checked_pow 10 (s.length - s.length) with
          | some denominator => Except.ok ⟨numerator, denominator⟩
          | none => Except.error "cannot calculate ratio: exponent too big"
        else Except.error "exponent conversion failed" := by
  simp only [Ratio.deserialize, hfind]

theorem parseU128_nil :
    parseU128 ([] : List Char) = Except.error "invalid u128 literal" := by
  unfold parseU128
  rw [if_neg]
  intro hcond
  exact hcond.1 rfl

end Osmosis

namespace Osmosis

/-- C9 (amended): for every well-formed numeral string (digits with at most
one decimal point), when the string denotes a nonzero value and both the
combined digit value and the power of ten fit in 128 bits, the deserializer
returns the pair whose denominator is 10 raised to the number of fractional
digits remaining after stripping trailing zeros and whose quotient is
exactly the denoted rational value; when the string denotes zero it returns
an error. (The claim as stated, without the 128-bit provisos, fails: see the
counterexample.) -/
theorem ratio_deserialize_spec (s : List Char) (hwf : WellFormed s) :
    (denotedNum s ≠ 0 →
      digitsVal (wholePart s ++ trimEndZeros (fracPart s)) < 2 ^ 128 →
      10 ^ (trimEndZeros (fracPart s)).length < 2 ^ 128 →
      Ratio.deserialize s =
        Except.ok ⟨digitsVal (wholePart s ++ trimEndZeros (fracPart s)),
          10 ^ (trimEndZeros (fracPart s)).length⟩ ∧
      (digitsVal (wholePart s ++ trimEndZeros (fracPart s)) : ℚ) /
          (10 : ℚ) ^ (trimEndZeros (fracPart s)).length = denotedVal s) ∧
    (denotedNum s = 0 → ∃ e, Ratio.deserialize s = Except.error e) := by
  obtain ⟨hchars, hcount⟩ := hwf
  by_cases hp : '.' ∈ s
  · have hsplit := split_at_point s hp
    have hwd : ∀ c ∈ wholePart s, c.isDigit = true := by
      intro c hc
      rcases hchars c (mem_wholePart hc) with h | h
      · exact h
      · exact absurd h (wholePart_no_point hc)
    have hfnp : '.' ∉ fracPart s := by
      have hc2 : s.count '.' =
          (wholePart s).count '.' + ((fracPart s).count '.' + 1) := by
        conv_lhs => rw [hsplit]
        simp [List.count_append, List.count_cons]
      rw [← List.count_eq_zero]
      omega
    have hfd : ∀ c ∈ fracPart s, c.isDigit = true := by
      intro c hc
      rcases hchars c (mem_fracPart hc) with h | h
      · exact h
      · exact absurd (h ▸ hc) hfnp
    have hwf2d : ∀ c ∈ wholePart s ++ trimEndZeros (fracPart s),
        c.isDigit = true := by
      intro c hc
      rcases List.mem_append.mp hc with h | h
      · exact hwd c h
      · exact hfd c (mem_trimEndZeros h)
    obtain ⟨k, hkf⟩ := trimEndZeros_decomposition (fracPart s)
    have hlenf : (fracPart s).length = (trimEndZeros (fracPart s)).length + k := by
      conv_lhs => rw [hkf]
      simp
    have hvalf : digitsVal (fracPart s) =
        digitsVal (trimEndZeros (fracPart s)) * 10 ^ k := by
      conv_lhs => rw [hkf]
      rw [digitsVal_append, digitsVal_replicate_zero, List.length_replicate,
        Nat.add_zero]
    have hkey : digitsVal (wholePart s ++ fracPart s) =
        digitsVal (wholePart s ++ trimEndZeros (fracPart s)) * 10 ^ k := by
      rw [digitsVal_append, digitsVal_append, hvalf, hlenf, pow_add]
      ring
    have hfind : findPoint s = some (wholePart s).length := by
      conv_lhs => rw [hsplit]
      exact findPoint_append _ _ (fun c hc => wholePart_no_point hc)
    have hcons : trimEndZeros ('.' :: fracPart s) =
        '.' :: trimEndZeros (fracPart s) :=
      trimEndZeros_cons_of_ne '.' (fracPart s) (by decide)
    have htrim : trimEndZeros s =
        wholePart s ++ '.' :: trimEndZeros (fracPart s) := by
      conv_lhs => rw [hsplit]
      rw [trimEndZeros_append _ _ (by rw [hcons]; simp), hcons]
    have hrem : removeAt (trimEndZeros s) (wholePart s).length =
        wholePart s ++ trimEndZeros (fracPart s) := by
      rw [htrim]
      exact removeAt_append _ _ '.'
    have heval := deserialize_eval_point s (wholePart s)
      (trimEndZeros (fracPart s)) hfind hrem
    have hlen2 : (wholePart s ++ trimEndZeros (fracPart s)).length -
        (wholePart s).length = (trimEndZeros (fracPart s)).length := by
      simp
    constructor
    · intro hne hnum hden
      have hne2 : digitsVal (wholePart s ++ trimEndZeros (fracPart s)) ≠ 0 := by
        intro h0
        apply hne
        unfold denotedNum
        rw [hkey, h0, zero_mul]
      have htsne : trimStartZeros (wholePart s ++ trimEndZeros (fracPart s)) ≠ [] := by
        intro h0
        exact hne2 ((digitsVal_eq_zero_iff _ hwf2d).mpr
          ((trimStart_eq_nil_iff _).mp h0))
      have htsd : ∀ c ∈ trimStartZeros (wholePart s ++ trimEndZeros (fracPart s)),
          c.isDigit = true :=
        fun c hc => hwf2d c (mem_trimStartZeros hc)
      have htsv : digitsVal (trimStartZeros (wholePart s ++ trimEndZeros (fracPart s))) =
          digitsVal (wholePart s ++ trimEndZeros (fracPart s)) :=
        trimStart_digitsVal _
      have hparse : parseU128 (trimStartZeros (wholePart s ++ trimEndZeros (fracPart s))) =
          Except.ok (digitsVal (wholePart s ++ trimEndZeros (fracPart s))) := by
        rw [parseU128_ok _ htsne htsd (htsv ▸ hnum), htsv]
      have hflen : (trimEndZeros (fracPart s)).length < 2 ^ 32 := by
        have h128 : (trimEndZeros (fracPart s)).length < 128 := by
          by_contra hge
          push_neg at hge
          have h1 : (2:Nat) ^ 128 ≤ 10 ^ 128 := Nat.pow_le_pow_left (by norm_num) 128
          have h2 : (10:Nat) ^ 128 ≤ 10 ^ (trimEndZeros (fracPart s)).length :=
            Nat.pow_le_pow_right (by norm_num) hge
          omega
        exact lt_of_lt_of_le h128 (by norm_num)
      have hcp : u128_checked_pow 10 (trimEndZeros (fracPart s)).length =
          some (10 ^ (trimEndZeros (fracPart s)).length) := by
        unfold u128_checked_pow
        rw [if_pos hden]
      constructor
      · rw [heval, hparse]
        simp only [hlen2]
        rw [if_pos hflen, hcp]
      · unfold denotedVal denotedNum
        rw [hkey, hlenf, pow_add]
        push_cast
        exact (mul_div_mul_right _ _ (pow_ne_zero k (by norm_num))).symm
    · intro h0
      have h02 : digitsVal (wholePart s ++ trimEndZeros (fracPart s)) = 0 := by
        unfold denotedNum at h0
        rw [hkey] at h0
        rcases Nat.mul_eq_zero.mp h0 with h | h
        · exact h
        · exact absurd h (Nat.pos_iff_ne_zero.mp (Nat.pos_pow_of_pos k (by norm_num)))
      have hts0 : trimStartZeros (wholePart s ++ trimEndZeros (fracPart s)) = [] :=
        (trimStart_eq_nil_iff _).mpr ((digitsVal_eq_zero_iff _ hwf2d).mp h02)
      refine ⟨"invalid u128 literal", ?_⟩
      rw [heval, hts0, parseU128_nil]
  · have hw : wholePart s = s := wholePart_of_not_mem s hp
    have hf : fracPart s = [] := fracPart_of_not_mem s hp
    have hsd : ∀ c ∈ s, c.isDigit = true := by
      intro c hc
      rcases hchars c hc with h | h
      · exact h
      · exact absurd (h ▸ hc) hp
    have hfind : findPoint s = none := findPoint_of_not_mem s hp
    have heval := deserialize_eval_nopoint s hfind
    have hdn : denotedNum s = digitsVal s := by
      unfold denotedNum
      rw [hw, hf, List.append_nil]
    have htez : trimEndZeros (fracPart s) = [] := by
      rw [hf]
      rfl
    constructor
    · intro hne hnum hden
      have hne2 : digitsVal s ≠ 0 := by rwa [hdn] at hne
      have htsne : trimStartZeros s ≠ [] := by
        intro h0
        exact hne2 ((digitsVal_eq_zero_iff _ hsd).mpr
          ((trimStart_eq_nil_iff _).mp h0))
      have htsd : ∀ c ∈ trimStartZeros s, c.isDigit = true :=
        fun c hc => hsd c (mem_trimStartZeros hc)
      have htsv : digitsVal (trimStartZeros s) = digitsVal s :=
        trimStart_digitsVal _
      have hnum2 : digitsVal s < 2 ^ 128 := by
        rw [hw, htez, List.append_nil] at hnum
        exact hnum
      have hparse : parseU128 (trimStartZeros s) = Except.ok (digitsVal s) := by
        rw [parseU128_ok _ htsne htsd (htsv ▸ hnum2), htsv]
      have hcp : u128_checked_pow 10 0 = some 1 := by
        unfold u128_checked_pow
        rw [if_pos (by norm_num)]
        norm_num
      constructor
      · rw [heval, hparse]
        simp only [Nat.sub_self]
        rw [if_pos (by norm_num : (0:Nat) < 2 ^ 32), hcp, hw, htez,
          List.append_nil, List.length_nil, pow_zero]
      · rw [hw, htez, List.append_nil, List.length_nil, pow_zero]
        unfold denotedVal
        rw [hdn, hf, List.length_nil, pow_zero]
    · intro h0
      have h02 : digitsVal s = 0 := by rwa [hdn] at h0
      have hts0 : trimStartZeros s = [] :=
        (trimStart_eq_nil_iff _).mpr ((digitsVal_eq_zero_iff _ hsd).mp h02)
      refine ⟨"invalid u128 literal", ?_⟩
      rw [heval, hts0, parseU128_nil]


/-- Witness for C9's amended theorem at the string `12.50`: the deserializer
returns numerator 125 and denominator 10, and 125/10 is the denoted value. -/
theorem ratio_deserialize_spec_witness :
    Ratio.deserialize ratioSample =
      Except.ok ⟨digitsVal (wholePart ratioSample ++
          trimEndZeros (fracPart ratioSample)),
        10 ^ (trimEndZeros (fracPart ratioSample)).length⟩ ∧
    (digitsVal (wholePart ratioSample ++
        trimEndZeros (fracPart ratioSample)) : ℚ) /
        (10 : ℚ) ^ (trimEndZeros (fracPart ratioSample)).length =
      denotedVal ratioSample ∧
    Ratio.deserialize ratioSample = Except.ok ⟨125, 10⟩ := by
  have h := (ratio_deserialize_spec ratioSample (by decide)).1 (by decide)
    (by decide) (by decide)
  exact ⟨h.1, h.2, by decide⟩

/-- C9 counterexample: the well-formed string `0.(38 zeros)1` denotes a
positive value, yet the deserializer returns an error because
`10.checked_pow(39)` overflows `u128`; the claim as stated promises a
numerator/denominator pair for every positive input. -/
theorem ratio_deserialize_overflow :
    WellFormed ratioOverflowSample ∧
    denotedNum ratioOverflowSample ≠ 0 ∧
    Ratio.deserialize ratioOverflowSample =
      Except.error "cannot calculate ratio: exponent too big" := by
  refine ⟨by decide, by decide, by decide⟩

end Osmosis

namespace Osmosis

theorem spot_prices_loop_congr
    (send send' : Nat → Symbol → Symbol → Except String HttpResp)
    (qs : List (Nat × (Ticker × Symbol) × (Ticker × Symbol)))
    (h : ∀ q ∈ qs, send q.1 q.2.1.2 q.2.2.2 = send' q.1 q.2.1.2 q.2.2.2) :
    spot_prices_loop send qs = spot_prices_loop send' qs := by
  induction qs with
  | nil => rfl
  | cons q rest ih =>
    obtain ⟨pool_id, ⟨ft, fs⟩, ⟨tt2, ts⟩⟩ := q
    have hq := h _ (List.mem_cons_self _ _)
    have hrest := ih fun q hq2 => h q (List.mem_cons_of_mem _ hq2)
    simp only [spot_prices_loop]
    rw [hq, hrest]

theorem spot_prices_loop_ok
    (send : Nat → Symbol → Symbol → Except String HttpResp)
    (qs : List (Nat × (Ticker × Symbol) × (Ticker × Symbol)))
    (h : ∀ q ∈ qs, ∃ resp, send q.1 q.2.1.2 q.2.2.2 = Except.ok resp ∧
      (resp.status = 200 → ∃ sp, resp.json = Except.ok sp)) :
    spot_prices_loop send qs = Except.ok (spec_ok_prices send qs) := by
  induction qs with
  | nil => rfl
  | cons q rest ih =>
    obtain ⟨pool_id, ⟨ft, fs⟩, ⟨tt2, ts⟩⟩ := q
    obtain ⟨resp, hsend, hjson⟩ := h _ (List.mem_cons_self _ _)
    have ihx := ih fun q hq => h q (List.mem_cons_of_mem _ hq)
    simp only [spot_prices_loop, spec_ok_prices, List.filterMap_cons, hsend]
    by_cases hst : resp.status = 200
    · obtain ⟨sp, hsp⟩ := hjson hst
      rw [if_pos hst, hsp, ihx]
      simp [spec_ok_prices, hsend, hst, hsp]
    · rw [if_neg hst, ihx]
      simp [spec_ok_prices, hsend, hst]

end Osmosis

namespace Osmosis

/-- C10: `get_spot_prices` queries exactly the supported pairs whose two
tickers both resolve in the currencies map (its result is unaffected by what
the HTTP oracle would answer for any other pair), and — provided every
queried pair answers without a transport error and every 200-status body
parses — it returns `Ok` with exactly the prices of the 200-status pairs, a
non-200 status never failing the call. -/
theorem get_spot_prices_spec (supported : List SwapPair)
    (currencies : List (Ticker × Symbol))
    (send send' : Nat → Symbol → Symbol → Except String HttpResp) :
    ((∀ q ∈ spot_prices_queries supported currencies,
        send q.1 q.2.1.2 q.2.2.2 = send' q.1 q.2.1.2 q.2.2.2) →
      get_spot_prices supported currencies send =
        get_spot_prices supported currencies send') ∧
    ((∀ q ∈ spot_prices_queries supported currencies,
        ∃ resp, send q.1 q.2.1.2 q.2.2.2 = Except.ok resp ∧
          (resp.status = 200 → ∃ sp, resp.json = Except.ok sp)) →
      get_spot_prices supported currencies send =
        Except.ok (spec_ok_prices send
          (spot_prices_queries supported currencies))) := by
  constructor
  · intro h
    exact spot_prices_loop_congr send send' _ h
  · intro h
    exact spot_prices_loop_ok send _ h

/-- Witness for C10: pool 1 answers 500 and contributes nothing, pool 2
answers 200 and contributes its price, the A-D pair is skipped, and changing
the oracle at the skipped pool 3 leaves the result unchanged. -/
theorem get_spot_prices_spec_witness :
    (get_spot_prices sampleSupported sampleCurrencies sampleSend =
      get_spot_prices sampleSupported sampleCurrencies sampleSendAlt) ∧
    (get_spot_prices sampleSupported sampleCurrencies sampleSend =
      Except.ok (spec_ok_prices sampleSend
        (spot_prices_queries sampleSupported sampleCurrencies))) ∧
    get_spot_prices sampleSupported sampleCurrencies sampleSend =
      Except.ok [Price.new "A" 3 "C" 2] := by
  have hqs : spot_prices_queries sampleSupported sampleCurrencies =
      [(1, ("A", "ua"), ("B", "ub")), (2, ("A", "ua"), ("C", "uc"))] := by
    decide
  refine ⟨?_, ?_, by decide⟩
  · exact (get_spot_prices_spec sampleSupported sampleCurrencies sampleSend
      sampleSendAlt).1 (by decide)
  · refine (get_spot_prices_spec sampleSupported sampleCurrencies sampleSend
      sampleSendAlt).2 ?_
    intro q hq
    rw [hqs] at hq
    rcases List.mem_cons.mp hq with h | h
    · subst h
      exact ⟨⟨500, Except.error "ignored"⟩, rfl,
        fun h200 => absurd h200 (by decide)⟩
    · rcases List.mem_cons.mp h with h2 | h2
      · subst h2
        exact ⟨⟨200, Except.ok ⟨3, 2⟩⟩, rfl, fun _ => ⟨⟨3, 2⟩, rfl⟩⟩
      · cases h2

end Osmosis
